import Mathlib

/-!
Formal model of the PyBacktester core: a shallow embedding of
`performance.py` (Sharpe ratio and drawdown/duration computation) and of
`data.py` (`HistoricCSVDataHandler`: loading/reindexing, bar replay via
`update_bars`, and the latest-bar accessors), together with theorems
settling the specification claims.

Modelling conventions:
* pandas float values are modelled by exact rationals; a pandas `NaN`
  cell is modelled by `none` in `Option ℚ` (so `NaN == 0` is false and
  `NaN + 1` is `NaN`, as in IEEE arithmetic);
* a pandas `Series`/`DataFrame` row sequence is a `List`;
* timestamps are natural numbers and symbols are opaque identifiers
  modelled by natural numbers;
* the result of the float expression `sqrt(periods) * mean / std` is
  modelled exactly by the type `FloatVal` below, whose constructor
  `fin q p` denotes the real number `q * sqrt p` (with `p ≥ 0`), and
  whose other constructors are the IEEE specials produced by the
  division: `x / 0` is `NaN` when `x = 0` and a signed infinity
  otherwise, and `sqrt` of a negative argument is `NaN`.
-/

namespace PyBacktester

/-- Timestamps on the simulated timeline (`datetime` index values). -/
abbrev Timestamp := Nat

/-- Symbols are opaque identifiers; the model uses naturals for them. -/
abbrev Symbol := Nat

/-- NaN-skipping maximum of a pandas Series, as computed by
`Series.max()`: `none` entries (NaN) are ignored, and the maximum of an
all-NaN series is NaN (`none`). -/
def nanMax (l : List (Option ℚ)) : Option ℚ :=
  l.foldl
    (fun acc o =>
      match acc, o with
      | none, o2 => o2
      | some a, none => some a
      | some a, some b => some (max a b))
    none

/-- The loop state of `create_drawdowns` in `performance.py`: the
growing `hwm` python list, and the two pandas Series `drawdown` and
`duration`, which are created with `pd.Series(index=idx)` and therefore
start out filled with NaN (`none`). -/
structure DDState where
  hwm : List ℚ
  drawdown : List (Option ℚ)
  duration : List (Option ℚ)
deriving DecidableEq, Repr

/-- One iteration of the loop `for i in range(1, len(idx))` in
`create_drawdowns`:
`hwm.append(max(hwm[i-1], pnl[i]))`;
`drawdown[i] = hwm[i] - pnl[i]`;
`duration[i] = 0 if drawdown[i] == 0 else duration[i-1] + 1`.
Note `duration[i-1]` is NaN-propagating: `NaN + 1 = NaN`, and the
comparison `drawdown[i] == 0` reads the value just written. -/
def ddStep (pnl : List ℚ) (st : DDState) (i : Nat) : DDState :=
  let h := max (st.hwm.getD (i - 1) 0) (pnl.getD i 0)
  let d := h - pnl.getD i 0
  { hwm := st.hwm ++ [h]
    drawdown := st.drawdown.set i (some d)
    duration := st.duration.set i
      (if d = 0 then some 0 else (st.duration.getD (i - 1) none).map (fun x => x + 1)) }

/-- The initial loop state of `create_drawdowns`: `hwm = [0]` and the
two all-NaN series of the same length as `pnl`. -/
def ddInit (pnl : List ℚ) : DDState :=
  { hwm := [0]
    drawdown := List.replicate pnl.length none
    duration := List.replicate pnl.length none }

/-- The loop state of `create_drawdowns` after the iterations
`i = 1, ..., k`. -/
def ddUpTo (pnl : List ℚ) (k : Nat) : DDState :=
  (List.range' 1 k).foldl (ddStep pnl) (ddInit pnl)

/-- The final loop state of `create_drawdowns` (the loop runs over
`range(1, len(idx))`, that is `len(pnl) - 1` iterations). -/
def ddRun (pnl : List ℚ) : DDState :=
  ddUpTo pnl (pnl.length - 1)

/-- Model of `create_drawdowns(pnl)` from `performance.py`: returns the
triple `(drawdown, drawdown.max(), duration.max())`. -/
def create_drawdowns (pnl : List ℚ) : List (Option ℚ) × Option ℚ × Option ℚ :=
  ((ddRun pnl).drawdown, nanMax (ddRun pnl).drawdown, nanMax (ddRun pnl).duration)

/-- The intended running high-water mark of the code, as a function of
the index: `hwmAt pnl 0 = 0` and
`hwmAt pnl (i+1) = max (hwmAt pnl i) (pnl[i+1])`.  This matches the
entries of the `hwm` python list built by `create_drawdowns`. -/
def hwmAt (pnl : List ℚ) : Nat → ℚ
  | 0 => 0
  | i + 1 => max (hwmAt pnl i) (pnl.getD (i + 1) 0)

/-- Model of `np.mean` on a list of floats: the arithmetic mean, or NaN
(`none`) for an empty input. -/
def npMean (l : List ℚ) : Option ℚ :=
  if l.length = 0 then none else some (l.sum / (l.length : ℚ))

/-- Model of the square of `np.std` (population variance, `ddof = 0`):
the mean of the squared deviations from the mean, or NaN (`none`) for an
empty input.  `np.std l = 0` exactly when `npVariance l = some 0`, and
`np.std l > 0` exactly when `npVariance l = some v` with `v > 0`. -/
def npVariance (l : List ℚ) : Option ℚ :=
  match npMean l with
  | none => none
  | some m => some ((l.map (fun x => (x - m) * (x - m))).sum / (l.length : ℚ))

/-- Exact model of the value of the float expression
`np.sqrt(periods) * np.mean(returns) / np.std(returns)`:
`fin q p` denotes the finite real number `q * sqrt p` (with `p ≥ 0`),
and the remaining constructors are the IEEE special values. -/
inductive FloatVal where
  | fin (q : ℚ) (p : ℚ)
  | posInf
  | negInf
  | nan
deriving DecidableEq, Repr

/-- The sign of a rational: `1`, `-1` or `0`. -/
def ratSgn (q : ℚ) : ℚ := if 0 < q then 1 else if q < 0 then -1 else 0

/-- The sign of a `FloatVal`; NaN has no sign (`none`).  For
`fin q p` (denoting `q * sqrt p` with `p ≥ 0`) the sign is `0` when
`p = 0` and otherwise the sign of `q`. -/
def FloatVal.signVal : FloatVal → Option ℚ
  | .fin q p => some (if p = 0 then 0 else ratSgn q)
  | .posInf => some 1
  | .negInf => some (-1)
  | .nan => none

/-- Whether a `FloatVal` is a finite number (neither NaN nor a signed
infinity). -/
def FloatVal.isFiniteVal : FloatVal → Bool
  | .fin _ _ => true
  | _ => false

/-- Model of `create_sharpe_ratio(returns, periods)` from
`performance.py`: the value of
`np.sqrt(periods) * np.mean(returns) / np.std(returns)` under IEEE
semantics, computed exactly.  With `m = mean` and `v = variance`
(so `std = sqrt v`): an empty input gives NaN; a negative `periods`
gives NaN (`sqrt` of a negative is NaN); when `v = 0` the division by
zero yields NaN if the numerator `m * sqrt periods` is zero and a
signed infinity otherwise (numpy emits a warning, it does not raise);
when `v > 0` the result is the finite number
`m * sqrt periods / sqrt v = m * sqrt (periods / v)`. -/
def create_sharpe_ratio (returns : List ℚ) (periods : ℚ) : FloatVal :=
  match npMean returns, npVariance returns with
  | some m, some v =>
    if periods < 0 then .nan
    else if v = 0 then
      if m = 0 ∨ periods = 0 then .nan
      else if 0 < m then .posInf else .negInf
    else .fin m (periods / v)
  | _, _ => .nan

/-- The forward-fill value of a (sorted) symbol series at timestamp `t`:
the value of the last observation with timestamp at most `t`, or `none`
(a NaN row) when the series has no observation yet at `t`.  This is the
semantics of a pandas `reindex(..., method='pad')` cell: a missing
observation repeats the last known values, and points before the first
true observation stay absent. -/
def lastObsLE (series : List (Timestamp × ℚ)) (t : Timestamp) : Option ℚ :=
  series.foldl (fun acc p => if p.1 ≤ t then some p.2 else acc) none

/-- Model of `DataFrame.reindex(index=timeline, method='pad')` on a
sorted symbol series: the resulting frame is indexed by `timeline`, each
cell holding the forward-filled value. -/
def reindexPad (series : List (Timestamp × ℚ)) (timeline : List Timestamp) :
    List (Timestamp × Option ℚ) :=
  timeline.map (fun t => (t, lastObsLE series t))

/-- Model of the `.sort()` call on each loaded frame in
`_open_convert_csv_files`: sort the rows by their datetime index. -/
def sortByDatetime (series : List (Timestamp × ℚ)) : List (Timestamp × ℚ) :=
  series.insertionSort (fun a b => a.1 ≤ b.1)

/-- The `comb_idx` computed by the first loop of
`_open_convert_csv_files` in `data.py`.  The source sets
`comb_idx = self.symbol_data[s].index` for the first symbol and then
evaluates `comb_idx.union(self.symbol_data[s].index)` for each later
symbol WITHOUT assigning the result, so the union is discarded and
`comb_idx` remains the first symbol's own index. -/
def combIdxOf (data : List (Symbol × List (Timestamp × ℚ))) : List Timestamp :=
  (data.foldl
    (fun acc p =>
      match acc with
      | none => some ((sortByDatetime p.2).map Prod.fst)
      | some idx => some idx)
    none).getD []

/-- Modelled from the spec for comparison with `combIdxOf` (the claim
says the reindex target is the union of all symbols' timestamps): the
union of the timestamp sets of all symbols. -/
def unionTimeline (data : List (Symbol × List (Timestamp × ℚ))) : List Timestamp :=
  data.foldl (fun acc p => acc ∪ p.2.map Prod.fst) []

/-- Model of `_open_convert_csv_files` from `data.py`: each symbol's
rows are sorted by datetime and reindexed with forward-fill onto
`comb_idx` (which, due to the discarded union, is the first symbol's
index). -/
def openConvertCsvFiles (data : List (Symbol × List (Timestamp × ℚ))) :
    List (Symbol × List (Timestamp × Option ℚ)) :=
  data.map (fun p => (p.1, reindexPad (sortByDatetime p.2) (combIdxOf data)))

/-- A revealed bar: the `(datetime, row)` pair yielded by `iterrows()`;
the row payload is modelled by a single rational value. -/
abbrev Bar := Timestamp × ℚ

/-- The per-symbol state of the handler: `remaining` is the not yet
consumed part of the `symbol_data[s]` row iterator, `revealed` is the
`latest_symbol_data[s]` list of already pushed bars. -/
structure SymState where
  remaining : List Bar
  revealed : List Bar
deriving DecidableEq, Repr

/-- The event kinds the data handler produces; `update_bars` enqueues
exactly one `MarketEvent` per call. -/
inductive Event where
  | market
deriving DecidableEq, Repr

/-- The state of a `HistoricCSVDataHandler`: the per-symbol states in
`symbol_list` order (the `symbol_data` iterators and the
`latest_symbol_data` lists, keyed by symbol), the `continue_backtest`
flag, and the event queue contents. -/
structure HState where
  syms : List (Symbol × SymState)
  continueBacktest : Bool
  events : List Event
deriving DecidableEq, Repr

/-- The handler state right after `__init__` (which runs
`_open_convert_csv_files`): every symbol holds its full series with an
empty revealed history, `continue_backtest` is `True`, and the queue is
empty.  The argument is the per-symbol (already reindexed) series. -/
def initState (data : List (Symbol × List Bar)) : HState :=
  { syms := data.map (fun p => (p.1, { remaining := p.2, revealed := [] }))
    continueBacktest := true
    events := [] }

/-- The effect of one `update_bars` iteration on one symbol's state:
`next(self._get_new_bar(s))` pops the next row of the shared iterator
and appends it to `latest_symbol_data[s]`; on `StopIteration` (series
exhausted) nothing is revealed. -/
def advanceSym (ss : SymState) : SymState :=
  match ss.remaining with
  | [] => ss
  | b :: rest => { remaining := rest, revealed := ss.revealed ++ [b] }

/-- Whether a symbol entry still has an unrevealed observation. -/
def hasRemaining (p : Symbol × SymState) : Bool :=
  !p.2.remaining.isEmpty

/-- One iteration of the `for s in self.symbol_list` loop of
`update_bars`: on `StopIteration` the loop body sets
`self.continue_backtest = False` and leaves the symbol untouched;
otherwise it appends the popped bar to that symbol's revealed list
(`bar is not None` always holds for `iterrows()` output). -/
def updateBarsStep (acc : List (Symbol × SymState) × Bool) (p : Symbol × SymState) :
    List (Symbol × SymState) × Bool :=
  match p.2.remaining with
  | [] => (acc.1 ++ [p], false)
  | b :: rest =>
    (acc.1 ++ [(p.1, { remaining := rest, revealed := p.2.revealed ++ [b] })], acc.2)

/-- Model of `update_bars` from `data.py`: process every symbol in
`symbol_list` order, then `self.events.put(MarketEvent())`. -/
def update_bars (st : HState) : HState :=
  let r := st.syms.foldl updateBarsStep ([], st.continueBacktest)
  { syms := r.1
    continueBacktest := r.2
    events := st.events ++ [Event.market] }

/-- The Python lookup errors the accessors can raise: `KeyError` from
the `latest_symbol_data[symbol]` dict access (caught, printed and
re-raised), and `IndexError` from `bars_list[-1]` on an empty list.
Both are subclasses of Python's `LookupError`. -/
inductive PyLookupError where
  | keyError
  | indexError
deriving DecidableEq, Repr

/-- Decidable equality of `Except` results, so that the accessor
results can be evaluated on concrete states. -/
def exceptDecEq {ε α : Type} [DecidableEq ε] [DecidableEq α] :
    DecidableEq (Except ε α) := fun a b =>
  match a, b with
  | .ok x, .ok y =>
    if h : x = y then .isTrue (by rw [h]) else .isFalse (fun hc => h (Except.ok.inj hc))
  | .ok _, .error _ => .isFalse (fun hc => Except.noConfusion hc)
  | .error _, .ok _ => .isFalse (fun hc => Except.noConfusion hc)
  | .error x, .error y =>
    if h : x = y then .isTrue (by rw [h]) else .isFalse (fun hc => h (Except.error.inj hc))

instance {ε α : Type} [DecidableEq ε] [DecidableEq α] : DecidableEq (Except ε α) :=
  exceptDecEq

/-- Model of `get_latest_bar(symbol)` from `data.py`: a `KeyError` for
an unknown symbol, an `IndexError` for `bars_list[-1]` when nothing has
been revealed, else the last revealed bar. -/
def get_latest_bar (st : HState) (symbol : Symbol) : Except PyLookupError Bar :=
  match st.syms.lookup symbol with
  | none => .error .keyError
  | some ss =>
    match ss.revealed.getLast? with
    | none => .error .indexError
    | some b => .ok b

/-- Python's `l[-n:]` slice for a natural `n`: the whole list when
`n = 0` (since `-0 == 0`), otherwise the last `min n (length l)`
elements; it never raises. -/
def pyLastSlice (l : List Bar) (n : Nat) : List Bar :=
  if n = 0 then l else l.drop (l.length - n)

/-- Model of `get_latest_bars(symbol, N)` from `data.py`: a `KeyError`
for an unknown symbol, else the slice `bars_list[-N:]` of the revealed
list (which is empty, not an error, when nothing has been revealed). -/
def get_latest_bars (st : HState) (symbol : Symbol) (n : Nat) :
    Except PyLookupError (List Bar) :=
  match st.syms.lookup symbol with
  | none => .error .keyError
  | some ss => .ok (pyLastSlice ss.revealed n)

end PyBacktester

namespace PyBacktester

theorem foldl_updateBarsStep (l : List (Symbol × SymState)) :
    ∀ (acc : List (Symbol × SymState)) (b : Bool),
      l.foldl updateBarsStep (acc, b) =
        (acc ++ l.map (fun p => (p.1, advanceSym p.2)), b && l.all hasRemaining) := by
  induction l with
  | nil => intro acc b; simp
  | cons p rest ih =>
    intro acc b
    rw [List.foldl_cons]
    cases hr : p.2.remaining with
    | nil =>
      have hstep : updateBarsStep (acc, b) p = (acc ++ [p], false) := by
        unfold updateBarsStep; rw [hr]
      have hadv : advanceSym p.2 = p.2 := by
        unfold advanceSym; rw [hr]
      have hrem : hasRemaining p = false := by
        unfold hasRemaining; rw [hr]; rfl
      rw [hstep, ih]
      simp [hadv, hrem]
    | cons bb rest2 =>
      have hstep : updateBarsStep (acc, b) p =
          (acc ++ [(p.1, { remaining := rest2, revealed := p.2.revealed ++ [bb] })], b) := by
        unfold updateBarsStep; rw [hr]
      have hadv : advanceSym p.2 =
          { remaining := rest2, revealed := p.2.revealed ++ [bb] } := by
        unfold advanceSym; rw [hr]
      have hrem : hasRemaining p = true := by
        unfold hasRemaining; rw [hr]; rfl
      rw [hstep, ih]
      simp [hadv, hrem]

theorem update_bars_char (st : HState) :
    update_bars st =
      { syms := st.syms.map (fun p => (p.1, advanceSym p.2))
        continueBacktest := st.continueBacktest && st.syms.all hasRemaining
        events := st.events ++ [Event.market] } := by
  unfold update_bars
  rw [foldl_updateBarsStep]
  rfl

theorem advanceSym_drop_take (l : List Bar) (k : Nat) :
    advanceSym { remaining := l.drop k, revealed := l.take k } =
      { remaining := l.drop (k + 1), revealed := l.take (k + 1) } := by
  cases h : l.drop k with
  | nil =>
    have hlen : l.length ≤ k := List.drop_eq_nil_iff.mp h
    have h1 : l.drop (k + 1) = [] := List.drop_eq_nil_iff.mpr (le_trans hlen (Nat.le_succ k))
    have h2 : l.take (k + 1) = l.take k := by
      rw [List.take_of_length_le hlen, List.take_of_length_le (le_trans hlen (Nat.le_succ k))]
    unfold advanceSym
    rw [h1, h2]
  | cons bb rest =>
    have h1 : l.drop (k + 1) = rest := by
      rw [← List.tail_drop, h, List.tail_cons]
    have h2 : l.take (k + 1) = l.take k ++ [bb] := by
      rw [List.take_add l k 1, h]
      simp
    unfold advanceSym
    rw [h1, h2]

theorem iterate_update_bars_syms (data : List (Symbol × List Bar)) (k : Nat) :
    (update_bars^[k] (initState data)).syms =
      data.map (fun p => (p.1, { remaining := p.2.drop k, revealed := p.2.take k })) := by
  induction k with
  | zero => simp [initState]
  | succ k2 ih =>
    rw [Function.iterate_succ_apply', update_bars_char]
    simp only [ih, List.map_map]
    apply List.map_congr_left
    intro p _
    simp only [Function.comp_apply]
    rw [advanceSym_drop_take]

/-- C3: for every symbol s with full series `full`, after k calls to
`update_bars()` the revealed history of s is exactly the first k bars of
`full`, whose length is `min k full.length`; and any single call grows
any symbol's revealed history by at most one element. -/
theorem update_bars_history_length (data : List (Symbol × List Bar)) (k : Nat)
    (s : Symbol) (full : List Bar) (hmem : (s, full) ∈ data)
    (st : HState) (q : Symbol × SymState) (hq : q ∈ st.syms) :
    (((s, { remaining := full.drop k, revealed := full.take k }) ∈
        (update_bars^[k] (initState data)).syms ∧
      (full.take k).length = min k full.length) ∧
    ∃ r, r ∈ (update_bars st).syms ∧ r.1 = q.1 ∧
      r.2.revealed.length ≤ q.2.revealed.length + 1) := by
  constructor
  · constructor
    · rw [iterate_update_bars_syms]
      exact List.mem_map.mpr ⟨(s, full), hmem, rfl⟩
    · exact List.length_take k full
  · refine ⟨(q.1, advanceSym q.2), ?_, rfl, ?_⟩
    · rw [update_bars_char]
      exact List.mem_map.mpr ⟨q, hq, rfl⟩
    · unfold advanceSym
      cases h : q.2.remaining with
      | nil => exact Nat.le_succ _
      | cons bb rest => simp

/-- Witness for C3 at a concrete input: one symbol with a one-bar
series, two calls to `update_bars`; the revealed history is the whole
series and its length is `min 2 1 = 1`. -/
theorem update_bars_history_length_witness :
    ((0 : Symbol), SymState.mk [] [((1 : Timestamp), (5 : ℚ))]) ∈
      (update_bars^[2] (initState [(0, [((1 : Timestamp), (5 : ℚ))])])).syms ∧
    (1 : Nat) = min 2 1 := by
  have h := update_bars_history_length [(0, [((1 : Timestamp), (5 : ℚ))])] 2 0
      [((1 : Timestamp), (5 : ℚ))] (by with_unfolding_all decide)
      (initState [(0, [((1 : Timestamp), (5 : ℚ))])])
      (0, SymState.mk [((1 : Timestamp), (5 : ℚ))] []) (by with_unfolding_all decide)
  exact ⟨h.1.1, h.1.2⟩

/-- C4: every call to `update_bars` appends the next unrevealed bar to
each non-exhausted symbol's revealed history; an exhausted symbol sets
the continue flag to false and reveals nothing further for itself
(other symbols are processed independently); and the call enqueues
exactly one MarketEvent. -/
theorem update_bars_step_spec (st : HState) (s : Symbol) (ss : SymState)
    (hmem : (s, ss) ∈ st.syms) :
    (update_bars st).events = st.events ++ [Event.market] ∧
    (∀ b rest, ss.remaining = b :: rest →
      (s, { remaining := rest, revealed := ss.revealed ++ [b] }) ∈
        (update_bars st).syms) ∧
    (ss.remaining = [] →
      (update_bars st).continueBacktest = false ∧
      (s, ss) ∈ (update_bars st).syms) := by
  rw [update_bars_char]
  refine ⟨rfl, ?_, ?_⟩
  · intro b rest hr
    have hadv : advanceSym ss = { remaining := rest, revealed := ss.revealed ++ [b] } := by
      unfold advanceSym; rw [hr]
    exact List.mem_map.mpr ⟨(s, ss), hmem, by rw [hadv]⟩
  · intro hr
    constructor
    · have hall : st.syms.all hasRemaining = false := by
        rcases Bool.eq_false_or_eq_true (st.syms.all hasRemaining) with h | h
        · exfalso
          have := List.all_eq_true.mp h (s, ss) hmem
          unfold hasRemaining at this
          rw [hr] at this
          simp at this
        · exact h
      rw [hall, Bool.and_false]
    · have hadv : advanceSym ss = ss := by
        unfold advanceSym; rw [hr]
      exact List.mem_map.mpr ⟨(s, ss), hmem, by rw [hadv]⟩

/-- Witness for C4 at a concrete input: a state with an exhausted
symbol 0 and a live symbol 1; the call flags exhaustion, leaves symbol
0 untouched, still advances symbol 1, and enqueues one MarketEvent. -/
theorem update_bars_step_spec_witness :
    (update_bars (HState.mk
        [(0, SymState.mk [] [((1 : Timestamp), (5 : ℚ))]),
         (1, SymState.mk [((2 : Timestamp), (6 : ℚ))] [])] true [])).events =
      [] ++ [Event.market] ∧
    (update_bars (HState.mk
        [(0, SymState.mk [] [((1 : Timestamp), (5 : ℚ))]),
         (1, SymState.mk [((2 : Timestamp), (6 : ℚ))] [])] true [])).continueBacktest = false ∧
    ((0 : Symbol), SymState.mk [] [((1 : Timestamp), (5 : ℚ))]) ∈
      (update_bars (HState.mk
        [(0, SymState.mk [] [((1 : Timestamp), (5 : ℚ))]),
         (1, SymState.mk [((2 : Timestamp), (6 : ℚ))] [])] true [])).syms ∧
    ((1 : Symbol), SymState.mk [] [((2 : Timestamp), (6 : ℚ))]) ∈
      (update_bars (HState.mk
        [(0, SymState.mk [] [((1 : Timestamp), (5 : ℚ))]),
         (1, SymState.mk [((2 : Timestamp), (6 : ℚ))] [])] true [])).syms := by
  have h0 := update_bars_step_spec (HState.mk
      [(0, SymState.mk [] [((1 : Timestamp), (5 : ℚ))]),
       (1, SymState.mk [((2 : Timestamp), (6 : ℚ))] [])] true [])
      0 (SymState.mk [] [((1 : Timestamp), (5 : ℚ))]) (by with_unfolding_all decide)
  have h1 := update_bars_step_spec (HState.mk
      [(0, SymState.mk [] [((1 : Timestamp), (5 : ℚ))]),
       (1, SymState.mk [((2 : Timestamp), (6 : ℚ))] [])] true [])
      1 (SymState.mk [((2 : Timestamp), (6 : ℚ))] []) (by with_unfolding_all decide)
  refine ⟨h0.1, (h0.2.2 rfl).1, (h0.2.2 rfl).2, ?_⟩
  have := h1.2.1 ((2 : Timestamp), (6 : ℚ)) [] rfl
  simpa using this

/-- C10: the continue flag starts true at construction and is monotone:
once false, no number of further `update_bars` calls (the only
operations that write it; the accessors read state only) makes it true
again. -/
theorem continue_flag_monotone (data : List (Symbol × List Bar)) (st : HState)
    (k : Nat) (h : st.continueBacktest = false) :
    (initState data).continueBacktest = true ∧
    (update_bars^[k] st).continueBacktest = false := by
  refine ⟨rfl, ?_⟩
  induction k with
  | zero => exact h
  | succ k2 ih =>
    rw [Function.iterate_succ_apply', update_bars_char]
    rw [ih, Bool.false_and]

/-- Witness for C10 at a concrete input: a state with the flag already
false keeps it false after one further call. -/
theorem continue_flag_monotone_witness :
    (initState ([] : List (Symbol × List Bar))).continueBacktest = true ∧
    (update_bars^[1] (HState.mk [] false [])).continueBacktest = false :=
  continue_flag_monotone [] (HState.mk [] false []) 1 rfl

theorem getD_set_self_of_lt {α : Type} (l : List α) (i : Nat) (a d : α)
    (h : i < l.length) : (l.set i a).getD i d = a := by
  rw [List.getD_eq_getElem?_getD, List.getElem?_set_self h]
  rfl

theorem getD_set_ne_of_ne {α : Type} (l : List α) (i j : Nat) (a d : α)
    (h : i ≠ j) : (l.set i a).getD j d = l.getD j d := by
  rw [List.getD_eq_getElem?_getD, List.getElem?_set_ne h, ← List.getD_eq_getElem?_getD]

theorem getD_replicate_self {α : Type} (n j : Nat) (d : α) :
    (List.replicate n d).getD j d = d := by
  rw [List.getD_eq_getElem?_getD, List.getElem?_replicate]
  split <;> rfl

theorem ddStep_hwm (pnl : List ℚ) (st : DDState) (i : Nat) :
    (ddStep pnl st i).hwm = st.hwm ++ [max (st.hwm.getD (i - 1) 0) (pnl.getD i 0)] := rfl

theorem ddStep_drawdown (pnl : List ℚ) (st : DDState) (i : Nat) :
    (ddStep pnl st i).drawdown =
      st.drawdown.set i
        (some (max (st.hwm.getD (i - 1) 0) (pnl.getD i 0) - pnl.getD i 0)) := rfl

theorem ddUpTo_succ (pnl : List ℚ) (k : Nat) :
    ddUpTo pnl (k + 1) = ddStep pnl (ddUpTo pnl k) (k + 1) := by
  unfold ddUpTo
  rw [List.range'_concat, List.foldl_append, List.foldl_cons, List.foldl_nil]
  norm_num
  rw [Nat.add_comm 1 k]

theorem ddUpTo_spec (pnl : List ℚ) :
    ∀ (k : Nat), k + 1 ≤ pnl.length →
      (ddUpTo pnl k).hwm.length = k + 1 ∧
      (∀ j, j ≤ k → (ddUpTo pnl k).hwm.getD j 0 = hwmAt pnl j) ∧
      (ddUpTo pnl k).drawdown.length = pnl.length ∧
      (∀ j, (ddUpTo pnl k).drawdown.getD j none =
        if 1 ≤ j ∧ j ≤ k then some (hwmAt pnl j - pnl.getD j 0) else none) := by
  intro k
  induction k with
  | zero =>
    intro _
    refine ⟨rfl, ?_, List.length_replicate _ _, ?_⟩
    · intro j hj
      have hj0 : j = 0 := Nat.le_zero.mp hj
      subst hj0
      rfl
    · intro j
      rw [if_neg (by omega)]
      exact getD_replicate_self pnl.length j none
  | succ k2 ih =>
    intro hk
    have hk2 : k2 + 1 ≤ pnl.length := by omega
    obtain ⟨ihlen, ihhwm, ihdlen, ihdd⟩ := ih hk2
    have hAeq : max ((ddUpTo pnl k2).hwm.getD (k2 + 1 - 1) 0) (pnl.getD (k2 + 1) 0) =
        hwmAt pnl (k2 + 1) := by
      have h1 : k2 + 1 - 1 = k2 := rfl
      rw [h1, ihhwm k2 (le_refl k2)]
      rfl
    rw [ddUpTo_succ]
    refine ⟨?_, ?_, ?_, ?_⟩
    · rw [ddStep_hwm, List.length_append, ihlen]
      rfl
    · intro j hj
      rw [ddStep_hwm]
      rcases Nat.lt_or_ge j (k2 + 1) with hlt | hge
      · rw [List.getD_append _ _ _ _ (by rw [ihlen]; exact hlt)]
        exact ihhwm j (by omega)
      · have hj1 : j = k2 + 1 := by omega
        subst hj1
        rw [List.getD_append_right _ _ _ _ (by rw [ihlen])]
        rw [ihlen, Nat.sub_self, List.getD_cons_zero]
        exact hAeq
    · rw [ddStep_drawdown, List.length_set]
      exact ihdlen
    · intro j
      rw [ddStep_drawdown]
      by_cases hj : j = k2 + 1
      · subst hj
        rw [getD_set_self_of_lt _ _ _ _ (by rw [ihdlen]; omega)]
        rw [if_pos (by omega)]
        rw [hAeq]
      · rw [getD_set_ne_of_ne _ _ _ _ _ (fun hc => hj hc.symm)]
        rw [ihdd j]
        by_cases hc : 1 ≤ j ∧ j ≤ k2
        · rw [if_pos hc, if_pos (by omega)]
        · rw [if_neg hc, if_neg (by omega)]

/-- C1 (code bug evaluation): on the spec's Scenario C input
[0, -5, -3, -10, 2], `create_drawdowns` leaves `drawdown[0]` and
`duration[0]` as NaN (the two Series are created uninitialized and the
loop starts at index 1), so `duration[i-1] + 1` propagates NaN through
indices 1..3; the returned maxima are drawdown 10 (as claimed) but
duration 0, not the claimed 3, and the series differ from the claimed
[0,5,3,10,0] / [0,1,2,3,0] at the NaN positions. -/
theorem scenarioC_eval :
    create_drawdowns [(0 : ℚ), -5, -3, -10, 2] =
      ([none, some 5, some 3, some 10, some 0], some 10, some 0) ∧
    (ddRun [(0 : ℚ), -5, -3, -10, 2]).duration = [none, none, none, none, some 0] ∧
    nanMax (ddRun [(0 : ℚ), -5, -3, -10, 2]).duration ≠ some 3 := by
  with_unfolding_all decide

/-- C6 counterexample: on the input [0, 0], `pnl[0] == hwm[0]` (both
are 0), yet `drawdown[0]` is NaN (`none`), not 0, and in particular no
non-negative rational value is stored there — the claimed invariant
fails at index 0. -/
theorem drawdown_index_zero_nan :
    (create_drawdowns [(0 : ℚ), 0]).1.getD 0 none = none ∧
    [(0 : ℚ), 0].getD 0 0 = hwmAt [(0 : ℚ), 0] 0 ∧
    ¬ ∃ d : ℚ, (create_drawdowns [(0 : ℚ), 0]).1.getD 0 none = some d ∧ 0 ≤ d := by
  refine ⟨by with_unfolding_all decide, by with_unfolding_all decide, ?_⟩
  rintro ⟨d, hd, _⟩
  rw [show (create_drawdowns [(0 : ℚ), 0]).1.getD 0 none = none by
    with_unfolding_all decide] at hd
  exact Option.noConfusion hd

/-- C6 amended: for every pnl sequence and every index 1 ≤ t < length,
the drawdown entry equals `hwm[t] - pnl[t]`, is non-negative, and is
zero exactly when `pnl[t] == hwm[t]`; index 0 is excluded because the
code leaves `drawdown[0]` uninitialized (NaN). -/
theorem drawdown_nonneg_from_one (pnl : List ℚ) (t : Nat) (h1 : 1 ≤ t)
    (h2 : t < pnl.length) :
    (create_drawdowns pnl).1.getD t none = some (hwmAt pnl t - pnl.getD t 0) ∧
    0 ≤ hwmAt pnl t - pnl.getD t 0 ∧
    (hwmAt pnl t - pnl.getD t 0 = 0 ↔ pnl.getD t 0 = hwmAt pnl t) := by
  have hk : (pnl.length - 1) + 1 ≤ pnl.length := by omega
  obtain ⟨_, _, _, hdd⟩ := ddUpTo_spec pnl (pnl.length - 1) hk
  refine ⟨?_, ?_, ?_⟩
  · show (ddRun pnl).drawdown.getD t none = _
    unfold ddRun
    rw [hdd t, if_pos (by omega)]
  · obtain ⟨j, rfl⟩ : ∃ j, t = j + 1 := ⟨t - 1, by omega⟩
    rw [sub_nonneg]
    show pnl.getD (j + 1) 0 ≤ max (hwmAt pnl j) (pnl.getD (j + 1) 0)
    exact le_max_right _ _
  · rw [sub_eq_zero]
    exact ⟨fun h => h.symm, fun h => h.symm⟩

/-- Witness for C6 amended at a concrete input: pnl [0, -5] at index 1
has drawdown 5 = hwm - pnl ≥ 0, zero exactly on equality. -/
theorem drawdown_nonneg_from_one_witness :
    (create_drawdowns [(0 : ℚ), -5]).1.getD 1 none =
      some (hwmAt [(0 : ℚ), -5] 1 - [(0 : ℚ), -5].getD 1 0) ∧
    0 ≤ hwmAt [(0 : ℚ), -5] 1 - [(0 : ℚ), -5].getD 1 0 ∧
    (hwmAt [(0 : ℚ), -5] 1 - [(0 : ℚ), -5].getD 1 0 = 0 ↔
      [(0 : ℚ), -5].getD 1 0 = hwmAt [(0 : ℚ), -5] 1) :=
  drawdown_nonneg_from_one [(0 : ℚ), -5] 1 (by omega) (by norm_num)

theorem npVariance_some_mean (returns : List ℚ) (v : ℚ)
    (hv : npVariance returns = some v) : ∃ m, npMean returns = some m := by
  unfold npVariance at hv
  cases h : npMean returns with
  | none =>
    rw [h] at hv
    exact Option.noConfusion hv
  | some m => exact ⟨m, rfl⟩

/-- C7 counterexample: the constant returns sequence [1, 1] has zero
standard deviation, but `create_sharpe_ratio` does not produce the
non-numeric NaN sentinel there: the numerator `sqrt(252) * 1` is a
positive finite float, and dividing it by 0.0 yields positive infinity
(with a numpy warning, not an exception). -/
theorem sharpe_const_posInf :
    npVariance [(1 : ℚ), 1] = some 0 ∧
    create_sharpe_ratio [(1 : ℚ), 1] 252 = FloatVal.posInf ∧
    FloatVal.posInf ≠ FloatVal.nan := by
  with_unfolding_all decide

/-- C7 amended: whenever the standard deviation is zero (variance
`some 0`), `create_sharpe_ratio` does not raise — the model is a total
function — and the result is never a finite number: it is the NaN
sentinel when the mean (or the annualization factor) is zero, and a
signed infinity otherwise. -/
theorem sharpe_std_zero_nonfinite (returns : List ℚ) (periods : ℚ)
    (hv : npVariance returns = some 0) :
    FloatVal.isFiniteVal ( create_sharpe_ratio returns periods) = false := by
  obtain ⟨m, hm⟩ := npVariance_some_mean returns 0 hv
  unfold create_sharpe_ratio
  rw [hm, hv]
  show FloatVal.isFiniteVal
    (if periods < 0 then FloatVal.nan
     else if (0 : ℚ) = 0 then
       if m = 0 ∨ periods = 0 then FloatVal.nan
       else if 0 < m then FloatVal.posInf else FloatVal.negInf
     else FloatVal.fin m (periods / 0)) = false
  by_cases hp : periods < 0
  · rw [if_pos hp]; rfl
  · rw [if_neg hp, if_pos rfl]
    by_cases hmz : m = 0 ∨ periods = 0
    · rw [if_pos hmz]; rfl
    · rw [if_neg hmz]
      by_cases hpos : 0 < m
      · rw [if_pos hpos]; rfl
      · rw [if_neg hpos]; rfl

/-- Witness for C7 amended at a concrete input: the constant sequence
[2, 2] has variance 0 and a non-finite Sharpe result. -/
theorem sharpe_std_zero_nonfinite_witness :
    FloatVal.isFiniteVal ( create_sharpe_ratio [(2 : ℚ), 2] 252) = false :=
  sharpe_std_zero_nonfinite [(2 : ℚ), 2] 252 (by with_unfolding_all decide)

/-- C8: whenever the standard deviation is positive (variance `some v`
with `v > 0`) and the annualization factor is positive, the sign of
`create_sharpe_ratio(returns, periods)` equals the sign of
`mean(returns)`: the result is the finite value
`mean * sqrt(periods / variance)` with a positive square-root factor. -/
theorem sharpe_sign_eq_mean_sign (returns : List ℚ) (periods : ℚ) (v : ℚ)
    (hv : npVariance returns = some v) (hvpos : 0 < v) (hp : 0 < periods) :
    ∃ m, npMean returns = some m ∧
      FloatVal.signVal ( create_sharpe_ratio returns periods) = some (ratSgn m) := by
  obtain ⟨m, hm⟩ := npVariance_some_mean returns v hv
  refine ⟨m, hm, ?_⟩
  unfold create_sharpe_ratio
  rw [hm, hv]
  show FloatVal.signVal
    (if periods < 0 then FloatVal.nan
     else if v = 0 then
       if m = 0 ∨ periods = 0 then FloatVal.nan
       else if 0 < m then FloatVal.posInf else FloatVal.negInf
     else FloatVal.fin m (periods / v)) = some (ratSgn m)
  rw [if_neg (not_lt.mpr hp.le), if_neg (ne_of_gt hvpos)]
  show some (if periods / v = 0 then (0 : ℚ) else ratSgn m) = some (ratSgn m)
  rw [if_neg (div_ne_zero (ne_of_gt hp) (ne_of_gt hvpos))]

/-- Witness for C8 at a concrete input: returns [1, 3] have variance 1
and mean 2, and the Sharpe sign is `+1 = ratSgn 2`. -/
theorem sharpe_sign_eq_mean_sign_witness :
    ∃ m, npMean [(1 : ℚ), 3] = some m ∧
      FloatVal.signVal ( create_sharpe_ratio [(1 : ℚ), 3] 252) = some (ratSgn m) :=
  sharpe_sign_eq_mean_sign [(1 : ℚ), 3] 252 1 (by with_unfolding_all decide)
    (by norm_num) (by norm_num)

theorem foldl_lastObs_of_none_le (t : Timestamp) :
    ∀ (series : List (Timestamp × ℚ)), (∀ p ∈ series, ¬ p.1 ≤ t) →
      ∀ (acc : Option ℚ),
        series.foldl (fun acc p => if p.1 ≤ t then some p.2 else acc) acc = acc := by
  intro series
  induction series with
  | nil => intro _ acc; rfl
  | cons q rest ih =>
    intro h acc
    rw [List.foldl_cons, if_neg (h q (List.mem_cons_self q rest))]
    exact ih (fun p hp => h p (List.mem_cons_of_mem q hp)) acc

theorem foldl_lastObs_mem (t : Timestamp) (v : ℚ) :
    ∀ (series : List (Timestamp × ℚ)),
      series.Pairwise (fun a b => a.1 < b.1) → (t, v) ∈ series →
      ∀ (acc : Option ℚ),
        series.foldl (fun acc p => if p.1 ≤ t then some p.2 else acc) acc = some v := by
  intro series
  induction series with
  | nil => intro _ hmem; cases hmem
  | cons q rest ih =>
    intro hsort hmem acc
    rw [List.foldl_cons]
    rcases List.mem_cons.mp hmem with heq | hmemr
    · rw [← heq]
      rw [if_pos (le_refl t)]
      apply foldl_lastObs_of_none_le
      intro p hp
      have hlt : (t, v).1 < p.1 := by
        rw [heq]
        exact (List.pairwise_cons.mp hsort).1 p hp
      exact not_le.mpr hlt
    · exact ih (List.pairwise_cons.mp hsort).2 hmemr _

theorem lastObsLE_mem (series : List (Timestamp × ℚ)) (t : Timestamp) (v : ℚ)
    (hsort : series.Pairwise (fun a b => a.1 < b.1)) (hmem : (t, v) ∈ series) :
    lastObsLE series t = some v :=
  foldl_lastObs_mem t v series hsort hmem none

theorem lookup_map_self {β : Type} (f : Timestamp → β) (t : Timestamp) :
    ∀ (timeline : List Timestamp), t ∈ timeline →
      List.lookup t (timeline.map (fun u => (u, f u))) = some (f t) := by
  intro timeline
  induction timeline with
  | nil => intro h; cases h
  | cons u rest ih =>
    intro ht
    rw [List.map_cons]
    by_cases h : u = t
    · subst h
      simp [List.lookup]
    · have hmem : t ∈ rest := by
        rcases List.mem_cons.mp ht with h1 | h1
        · exact absurd h1.symm h
        · exact h1
      have hne : (t == u) = false := beq_eq_false_iff_ne.mpr (fun hh => h hh.symm)
      simp [List.lookup, hne, ih hmem]

/-- C9: reindexing a (strictly sorted) symbol series onto a superset
timeline with forward-fill, then restricting back to an original
timestamp, reproduces the original value exactly: forward-fill is the
identity at true observation points. -/
theorem reindex_roundtrip (series : List (Timestamp × ℚ)) (timeline : List Timestamp)
    (hsort : series.Pairwise (fun a b => a.1 < b.1))
    (t : Timestamp) (v : ℚ) (hmem : (t, v) ∈ series) (ht : t ∈ timeline) :
    List.lookup t (reindexPad series timeline) = some (some v) := by
  unfold reindexPad
  rw [lookup_map_self (fun u => lastObsLE series u) t timeline ht]
  rw [lastObsLE_mem series t v hsort hmem]

/-- Witness for C9 at a concrete input: the series with observations at
timestamps 1 and 3, reindexed onto the superset timeline [1,2,3,4],
still holds the original value 7 at timestamp 3. -/
theorem reindex_roundtrip_witness :
    List.lookup 3 (reindexPad [(1, (5 : ℚ)), (3, 7)] [1, 2, 3, 4]) = some (some 7) :=
  reindex_roundtrip [(1, (5 : ℚ)), (3, 7)] [1, 2, 3, 4]
    (by with_unfolding_all decide) 3 7 (by with_unfolding_all decide)
    (by with_unfolding_all decide)

/-- C2 (code bug evaluation): with symbol 0 observed at timestamps
{1, 2} and symbol 1 observed at {1, 3}, the union timeline contains
timestamp 3, but `_open_convert_csv_files` reindexes every symbol onto
`comb_idx = [1, 2]` — the first symbol's own index, because the loop
evaluates `comb_idx.union(...)` without assigning the result — so
symbol 1's true observation at timestamp 3 is dropped from its
reindexed series instead of every series being indexed on the union
timeline. -/
theorem combIdx_drops_union :
    combIdxOf [(0, [(1, (10 : ℚ)), (2, 11)]), (1, [(1, (20 : ℚ)), (3, 21)])] = [1, 2] ∧
    (3 : Timestamp) ∈ unionTimeline
      [(0, [(1, (10 : ℚ)), (2, 11)]), (1, [(1, (20 : ℚ)), (3, 21)])] ∧
    (3 : Timestamp) ∉ combIdxOf
      [(0, [(1, (10 : ℚ)), (2, 11)]), (1, [(1, (20 : ℚ)), (3, 21)])] ∧
    openConvertCsvFiles [(0, [(1, (10 : ℚ)), (2, 11)]), (1, [(1, (20 : ℚ)), (3, 21)])] =
      [(0, [(1, some 10), (2, some 11)]), (1, [(1, some 20), (2, some 20)])] := by
  with_unfolding_all decide

/-- C5 counterexample: a state whose symbol 0 is known but has an empty
revealed history.  `get_latest_bars(0, 1)` returns the empty list with
no error — it does not fail with a lookup error as the claim requires —
because `bars_list[-1:]` on an empty Python list is just `[]`. -/
theorem get_latest_bars_unrevealed_ok :
    get_latest_bars (initState [(0, [((1 : Timestamp), (5 : ℚ))])]) 0 1 = Except.ok [] ∧
    (∀ e : PyLookupError,
      get_latest_bars (initState [(0, [((1 : Timestamp), (5 : ℚ))])]) 0 1 ≠
        Except.error e) := by
  refine ⟨by with_unfolding_all decide, ?_⟩
  intro e he
  rw [show get_latest_bars (initState [(0, [((1 : Timestamp), (5 : ℚ))])]) 0 1 =
      Except.ok [] by with_unfolding_all decide] at he
  exact Except.noConfusion he

/-- C5 amended: both accessors raise `KeyError` for an unknown symbol,
and `get_latest_bar` raises `IndexError` when nothing has been revealed
yet; `get_latest_bars` on a known symbol never raises on short
histories: whenever at most `n` bars are revealed (in particular when
the revealed history is non-empty but shorter than `n`) it returns
exactly the revealed bars — fewer than `n`, never padded with future
data. -/
theorem latest_bars_lookup_spec (st : HState) (s : Symbol) (n : Nat) (ss : SymState)
    (hn : 1 ≤ n) :
    (st.syms.lookup s = none →
      get_latest_bar st s = Except.error PyLookupError.keyError ∧
      get_latest_bars st s n = Except.error PyLookupError.keyError) ∧
    (st.syms.lookup s = some ss →
      (ss.revealed = [] → get_latest_bar st s = Except.error PyLookupError.indexError) ∧
      (ss.revealed.length ≤ n → get_latest_bars st s n = Except.ok ss.revealed)) := by
  constructor
  · intro hl
    constructor
    · unfold get_latest_bar; rw [hl]
    · unfold get_latest_bars; rw [hl]
  · intro hl
    constructor
    · intro hrev
      unfold get_latest_bar
      rw [hl]
      show (match ss.revealed.getLast? with
        | none => Except.error PyLookupError.indexError
        | some b => Except.ok b) = Except.error PyLookupError.indexError
      rw [hrev]
      rfl
    · intro hlen
      unfold get_latest_bars
      rw [hl]
      show Except.ok (pyLastSlice ss.revealed n) = Except.ok ss.revealed
      have hslice : pyLastSlice ss.revealed n = ss.revealed := by
        unfold pyLastSlice
        rw [if_neg (by omega : ¬ n = 0)]
        have hz : ss.revealed.length - n = 0 := by omega
        rw [hz, List.drop_zero]
      rw [hslice]

/-- Witness for C5 amended, at a concrete state with one revealed bar:
the unknown symbol 7 errors on both accessors, and asking for the last
5 bars of symbol 0 returns just the single revealed bar. -/
theorem latest_bars_lookup_spec_witness :
    get_latest_bar (HState.mk [(0, SymState.mk [((1 : Timestamp), (5 : ℚ))]
        [((2 : Timestamp), (6 : ℚ))])] true []) 7 =
      Except.error PyLookupError.keyError ∧
    get_latest_bars (HState.mk [(0, SymState.mk [((1 : Timestamp), (5 : ℚ))]
        [((2 : Timestamp), (6 : ℚ))])] true []) 7 5 =
      Except.error PyLookupError.keyError ∧
    get_latest_bars (HState.mk [(0, SymState.mk [((1 : Timestamp), (5 : ℚ))]
        [((2 : Timestamp), (6 : ℚ))])] true []) 0 5 =
      Except.ok [((2 : Timestamp), (6 : ℚ))] := by
  have h7 := latest_bars_lookup_spec (HState.mk [(0, SymState.mk
      [((1 : Timestamp), (5 : ℚ))] [((2 : Timestamp), (6 : ℚ))])] true []) 7 5
      (SymState.mk [] []) (by omega)
  have h0 := latest_bars_lookup_spec (HState.mk [(0, SymState.mk
      [((1 : Timestamp), (5 : ℚ))] [((2 : Timestamp), (6 : ℚ))])] true []) 0 5
      (SymState.mk [((1 : Timestamp), (5 : ℚ))] [((2 : Timestamp), (6 : ℚ))]) (by omega)
  refine ⟨?_, (h7.1 rfl).2, (h0.2 rfl).2 (by with_unfolding_all decide)⟩
  have h7b := latest_bars_lookup_spec (HState.mk [(0, SymState.mk
      [((1 : Timestamp), (5 : ℚ))] [((2 : Timestamp), (6 : ℚ))])] true []) 7 1
      (SymState.mk [] []) (by omega)
  exact (h7b.1 rfl).1

end PyBacktester
